import Mathlib

/-! ChaCha20-Poly1305 single-shot wrapper (`encrypt.c`)

A shallow embedding of `chacha_encrypt` and `chacha_decrypt`.

The two C functions drive the cipher-context interface of the cryptographic
library (`EVP_*`).  The library is not part of the program, so it is a
parameter of the embedding: a *capability* answers every library call with a
reply (status, reported length, bytes written through the output pointer) and
a new library state.  The C functions are translated once, against an
arbitrary capability, in explicit state-passing style; every library call goes
through `invoke`, which also appends the call to a trace.

Two capabilities are used in the theorems:

* `scripted o` - a memoryless capability whose reply to each step is read off
  a table `o` of outcomes, used to quantify over every combination of step
  outcomes;
* `evp A` - a model of the library's cipher context over an abstract AEAD `A`
  (stream encryption, stream decryption, tag function).
-/

namespace ChaCha

/-! ## Bytes, C `int`, caller buffers -/

/-- One `unsigned char`. -/
abbrev Byte := Fin 256

/-- Contents of a byte buffer. -/
abbrev Bytes := List Byte

/-- `#define KEY_SIZE 32`. -/
def KEY_SIZE : Int := 32

/-- `#define NONCE_SIZE 12`. -/
def NONCE_SIZE : Int := 12

/-- `#define TAG_SIZE 16`. -/
def TAG_SIZE : Int := 16

/-- Largest value of a C `int` (32 bits). -/
def INT_MAX : Int := 2 ^ 31 - 1

/-- Reduction of an integer to the range of a 32-bit two's-complement `int`. -/
def wrapInt (x : Int) : Int := (x + 2 ^ 31) % 2 ^ 32 - 2 ^ 31

/-- Addition of two C `int`s (`ciphertext_len += len`, `plaintext_len + len`). -/
def addInt (a b : Int) : Int := wrapInt (a + b)

/-- Store `data` through the pointer `buf + off`, seen from the buffer: byte
`i` of the buffer becomes `data[i - off]` when `off ≤ i < off + len(data)` and
is kept otherwise.  With `off < 0` the first `-off` bytes of the store fall
before the buffer and the rest lands at its start; bytes of a store that fall
before or past the buffer go to memory that is not part of the buffer (in the
program, an overrun) and do not appear in the result. -/
def writeAt (buf : Bytes) (off : Int) (data : Bytes) : Bytes :=
  if 0 ≤ off then
    buf.take off.toNat ++
      (data ++ buf.drop (off.toNat + data.length)).take (buf.length - off.toNat)
  else
    (data.drop (-off).toNat ++ buf.drop (data.length - (-off).toNat)).take buf.length

/-! ## The library interface -/

/-- The cipher selector passed to the init calls (`EVP_chacha20_poly1305()`). -/
inductive Cipher where
  | chacha20_poly1305
  deriving DecidableEq, Repr

/-- The control codes used with `EVP_CIPHER_CTX_ctrl`. -/
inductive CtrlType where
  | AEAD_SET_IVLEN
  | AEAD_GET_TAG
  | AEAD_SET_TAG
  deriving DecidableEq, Repr

/-- A call into the library, with its arguments.  A context is named by the
pointer value `ctx`; a pointer argument is `none` for `NULL` and otherwise the
bytes it points to.  The engine argument of the init calls is always `NULL` in
the program and is left out. -/
inductive Call where
  | CTX_new
  | EncryptInit_ex (ctx : Int) (cipher : Option Cipher) (key iv : Option Bytes)
  | DecryptInit_ex (ctx : Int) (cipher : Option Cipher) (key iv : Option Bytes)
  | CTX_ctrl (ctx : Int) (type : CtrlType) (arg : Int) (ptr : Option Bytes)
  | EncryptUpdate (ctx : Int) (inp : Bytes) (inl : Int)
  | DecryptUpdate (ctx : Int) (inp : Bytes) (inl : Int)
  | EncryptFinal_ex (ctx : Int)
  | DecryptFinal_ex (ctx : Int)
  | CTX_free (ctx : Int)
  deriving DecidableEq, Repr

/-- Whether a call releases a context. -/
def Call.isFree : Call → Bool
  | .CTX_free _ => true
  | _ => false

/-- What a call gives back: its `int` return value (for `CTX_new`, the pointer,
`0` being `NULL`), the value it leaves in `*outl`, and the bytes it stores
through its output pointer. -/
structure Reply where
  status : Int
  outl : Int
  out : Bytes
  deriving DecidableEq, Repr

/-- A reply that only reports a status. -/
def Reply.ofStatus (status : Int) : Reply := { status := status, outl := 0, out := [] }

/-- A capability: the library as a transition function on its own state. -/
abbrev Cap (S : Type) := Call → S → Reply × S

/-- The library state together with the calls issued so far. -/
structure World (S : Type) where
  lib : S
  trace : List Call

/-- Issue one call: the capability answers it and the call is recorded. -/
def invoke {S : Type} (cap : Cap S) (c : Call) (w : World S) : Reply × World S :=
  let r := cap c w.lib
  (r.1, { lib := r.2, trace := w.trace ++ [c] })

/-! ## `chacha_encrypt` -/

/-- Outcome of `chacha_encrypt`: the returned `int`, the two caller buffers
after the call, and the world after the call. -/
structure EncResult (S : Type) where
  ret : Int
  ciphertext : Bytes
  tag : Bytes
  world : World S

/-- The `error:` label of `chacha_encrypt`: free the context, return `-1`. -/
def chacha_encrypt_error {S : Type} (cap : Cap S) (ctx : Int) (w : World S)
    (ciphertext tag : Bytes) : EncResult S :=
  let f := invoke cap (.CTX_free ctx) w
  { ret := -1, ciphertext := ciphertext, tag := tag, world := f.2 }

/-- `int chacha_encrypt(plaintext, plaintext_len, key, nonce, ciphertext, tag)`.
`ciphertext` and `tag` are the contents of the caller's output buffers on
entry. -/
def chacha_encrypt {S : Type} (cap : Cap S) (w : World S)
    (plaintext : Bytes) (plaintext_len : Int) (key nonce : Bytes)
    (ciphertext tag : Bytes) : EncResult S :=
  -- ctx = EVP_CIPHER_CTX_new(); if (!ctx) return -1;
  let a := invoke cap .CTX_new w
  let ctx := a.1.status
  if ctx = 0 then
    { ret := -1, ciphertext := ciphertext, tag := tag, world := a.2 }
  else
  -- if (!EVP_EncryptInit_ex(ctx, EVP_chacha20_poly1305(), NULL, NULL, NULL)) goto error;
  let i := invoke cap (.EncryptInit_ex ctx (some .chacha20_poly1305) none none) a.2
  if i.1.status = 0 then chacha_encrypt_error cap ctx i.2 ciphertext tag else
  -- if (!EVP_CIPHER_CTX_ctrl(ctx, EVP_CTRL_AEAD_SET_IVLEN, NONCE_SIZE, NULL)) goto error;
  let v := invoke cap (.CTX_ctrl ctx .AEAD_SET_IVLEN NONCE_SIZE none) i.2
  if v.1.status = 0 then chacha_encrypt_error cap ctx v.2 ciphertext tag else
  -- if (!EVP_EncryptInit_ex(ctx, NULL, NULL, key, nonce)) goto error;
  let b := invoke cap (.EncryptInit_ex ctx none (some key) (some nonce)) v.2
  if b.1.status = 0 then chacha_encrypt_error cap ctx b.2 ciphertext tag else
  -- if (!EVP_EncryptUpdate(ctx, ciphertext, &len, plaintext, plaintext_len)) goto error;
  let u := invoke cap (.EncryptUpdate ctx plaintext plaintext_len) b.2
  let ciphertext := writeAt ciphertext 0 u.1.out
  let len := u.1.outl
  if u.1.status = 0 then chacha_encrypt_error cap ctx u.2 ciphertext tag else
  -- ciphertext_len = len;
  let ciphertext_len := len
  -- if (!EVP_EncryptFinal_ex(ctx, ciphertext + len, &len)) goto error;
  let f := invoke cap (.EncryptFinal_ex ctx) u.2
  let ciphertext := writeAt ciphertext len f.1.out
  let len := f.1.outl
  if f.1.status = 0 then chacha_encrypt_error cap ctx f.2 ciphertext tag else
  -- ciphertext_len += len;
  let ciphertext_len := addInt ciphertext_len len
  -- if (!EVP_CIPHER_CTX_ctrl(ctx, EVP_CTRL_AEAD_GET_TAG, TAG_SIZE, tag)) goto error;
  let g := invoke cap (.CTX_ctrl ctx .AEAD_GET_TAG TAG_SIZE (some tag)) f.2
  let tag := writeAt tag 0 g.1.out
  if g.1.status = 0 then chacha_encrypt_error cap ctx g.2 ciphertext tag else
  -- EVP_CIPHER_CTX_free(ctx); return ciphertext_len;
  let r := invoke cap (.CTX_free ctx) g.2
  { ret := ciphertext_len, ciphertext := ciphertext, tag := tag, world := r.2 }

/-! ## `chacha_decrypt` -/

/-- Outcome of `chacha_decrypt`: the returned `int`, the caller's plaintext
buffer after the call, and the world after the call. -/
structure DecResult (S : Type) where
  ret : Int
  plaintext : Bytes
  world : World S

/-- The `error:` label of `chacha_decrypt`: free the context, return `-1`. -/
def chacha_decrypt_error {S : Type} (cap : Cap S) (ctx : Int) (w : World S)
    (plaintext : Bytes) : DecResult S :=
  let f := invoke cap (.CTX_free ctx) w
  { ret := -1, plaintext := plaintext, world := f.2 }

/-- `int chacha_decrypt(ciphertext, ciphertext_len, tag, key, nonce, plaintext)`.
`plaintext` is the contents of the caller's output buffer on entry. -/
def chacha_decrypt {S : Type} (cap : Cap S) (w : World S)
    (ciphertext : Bytes) (ciphertext_len : Int) (tag key nonce : Bytes)
    (plaintext : Bytes) : DecResult S :=
  -- ctx = EVP_CIPHER_CTX_new(); if (!ctx) return -1;
  let a := invoke cap .CTX_new w
  let ctx := a.1.status
  if ctx = 0 then
    { ret := -1, plaintext := plaintext, world := a.2 }
  else
  -- if (!EVP_DecryptInit_ex(ctx, EVP_chacha20_poly1305(), NULL, NULL, NULL)) goto error;
  let i := invoke cap (.DecryptInit_ex ctx (some .chacha20_poly1305) none none) a.2
  if i.1.status = 0 then chacha_decrypt_error cap ctx i.2 plaintext else
  -- if (!EVP_CIPHER_CTX_ctrl(ctx, EVP_CTRL_AEAD_SET_IVLEN, NONCE_SIZE, NULL)) goto error;
  let v := invoke cap (.CTX_ctrl ctx .AEAD_SET_IVLEN NONCE_SIZE none) i.2
  if v.1.status = 0 then chacha_decrypt_error cap ctx v.2 plaintext else
  -- if (!EVP_DecryptInit_ex(ctx, NULL, NULL, key, nonce)) goto error;
  let b := invoke cap (.DecryptInit_ex ctx none (some key) (some nonce)) v.2
  if b.1.status = 0 then chacha_decrypt_error cap ctx b.2 plaintext else
  -- if (!EVP_DecryptUpdate(ctx, plaintext, &len, ciphertext, ciphertext_len)) goto error;
  let u := invoke cap (.DecryptUpdate ctx ciphertext ciphertext_len) b.2
  let plaintext := writeAt plaintext 0 u.1.out
  let len := u.1.outl
  if u.1.status = 0 then chacha_decrypt_error cap ctx u.2 plaintext else
  -- plaintext_len = len;
  let plaintext_len := len
  -- if (!EVP_CIPHER_CTX_ctrl(ctx, EVP_CTRL_AEAD_SET_TAG, TAG_SIZE, (void *)tag)) goto error;
  let t := invoke cap (.CTX_ctrl ctx .AEAD_SET_TAG TAG_SIZE (some tag)) u.2
  if t.1.status = 0 then chacha_decrypt_error cap ctx t.2 plaintext else
  -- ret = EVP_DecryptFinal_ex(ctx, plaintext + len, &len);
  let f := invoke cap (.DecryptFinal_ex ctx) t.2
  let plaintext := writeAt plaintext len f.1.out
  let len := f.1.outl
  let ret := f.1.status
  -- EVP_CIPHER_CTX_free(ctx);
  let r := invoke cap (.CTX_free ctx) f.2
  -- if (ret <= 0) return -1;
  if ret ≤ 0 then { ret := -1, plaintext := plaintext, world := r.2 } else
  -- return plaintext_len + len;
  { ret := addInt plaintext_len len, plaintext := plaintext, world := r.2 }

/-! ## Scripted capabilities: every combination of step outcomes -/

/-- A table of step outcomes: the pointer returned by the allocation (`0` is
`NULL`) and the reply of each later step.  `init` answers the init call that
names the cipher, `bind` the init call that passes key and nonce. -/
structure Script where
  alloc : Int
  init : Reply
  ivlen : Reply
  bind : Reply
  update : Reply
  final : Reply
  gettag : Reply
  settag : Reply

/-- The reply the table `o` gives to a call. -/
def Script.reply (o : Script) : Call → Reply
  | .CTX_new => { status := o.alloc, outl := 0, out := [] }
  | .EncryptInit_ex _ (some _) _ _ => o.init
  | .EncryptInit_ex _ none _ _ => o.bind
  | .DecryptInit_ex _ (some _) _ _ => o.init
  | .DecryptInit_ex _ none _ _ => o.bind
  | .CTX_ctrl _ .AEAD_SET_IVLEN _ _ => o.ivlen
  | .CTX_ctrl _ .AEAD_GET_TAG _ _ => o.gettag
  | .CTX_ctrl _ .AEAD_SET_TAG _ _ => o.settag
  | .EncryptUpdate _ _ _ => o.update
  | .DecryptUpdate _ _ _ => o.update
  | .EncryptFinal_ex _ => o.final
  | .DecryptFinal_ex _ => o.final
  | .CTX_free _ => { status := 0, outl := 0, out := [] }

/-- The memoryless capability that answers every call from the table `o`. -/
def scripted (o : Script) : Cap Unit := fun c s => (o.reply c, s)

/-- The world before a call of the program: nothing issued yet. -/
def World.start {S : Type} (s : S) : World S := { lib := s, trace := [] }

/-- The table of the replies a capability gives in a run of `chacha_decrypt`. -/
def decScriptOf {S : Type} (cap : Cap S) (s : S) (ciphertext : Bytes) (ciphertext_len : Int)
    (tag key nonce : Bytes) : Script :=
  let a := cap .CTX_new s
  let ctx := a.1.status
  let i := cap (.DecryptInit_ex ctx (some .chacha20_poly1305) none none) a.2
  let v := cap (.CTX_ctrl ctx .AEAD_SET_IVLEN NONCE_SIZE none) i.2
  let b := cap (.DecryptInit_ex ctx none (some key) (some nonce)) v.2
  let u := cap (.DecryptUpdate ctx ciphertext ciphertext_len) b.2
  let t := cap (.CTX_ctrl ctx .AEAD_SET_TAG TAG_SIZE (some tag)) u.2
  let f := cap (.DecryptFinal_ex ctx) t.2
  { alloc := ctx, init := i.1, ivlen := v.1, bind := b.1, update := u.1, final := f.1,
    gettag := Reply.ofStatus 0, settag := t.1 }

/-- The table of the replies a capability gives in a run of `chacha_encrypt`. -/
def encScriptOf {S : Type} (cap : Cap S) (s : S) (plaintext : Bytes) (plaintext_len : Int)
    (key nonce tag : Bytes) : Script :=
  let a := cap .CTX_new s
  let ctx := a.1.status
  let i := cap (.EncryptInit_ex ctx (some .chacha20_poly1305) none none) a.2
  let v := cap (.CTX_ctrl ctx .AEAD_SET_IVLEN NONCE_SIZE none) i.2
  let b := cap (.EncryptInit_ex ctx none (some key) (some nonce)) v.2
  let u := cap (.EncryptUpdate ctx plaintext plaintext_len) b.2
  let f := cap (.EncryptFinal_ex ctx) u.2
  let g := cap (.CTX_ctrl ctx .AEAD_GET_TAG TAG_SIZE (some tag)) f.2
  { alloc := ctx, init := i.1, ivlen := v.1, bind := b.1, update := u.1, final := f.1,
    gettag := g.1, settag := Reply.ofStatus 0 }

/-- The six steps of `chacha_decrypt` that are tested with `!status` all pass:
the allocation gives a non-`NULL` context and init, nonce-length set, key/nonce
bind, update and tag set give a nonzero status. -/
def Script.decSetupOk (o : Script) : Prop :=
  o.alloc ≠ 0 ∧ o.init.status ≠ 0 ∧ o.ivlen.status ≠ 0 ∧ o.bind.status ≠ 0 ∧
    o.update.status ≠ 0 ∧ o.settag.status ≠ 0

instance (o : Script) : Decidable o.decSetupOk := by
  unfold Script.decSetupOk; infer_instance

/-- All seven steps of `chacha_encrypt` pass its `!status` tests. -/
def Script.encAllOk (o : Script) : Prop :=
  o.alloc ≠ 0 ∧ o.init.status ≠ 0 ∧ o.ivlen.status ≠ 0 ∧ o.bind.status ≠ 0 ∧
    o.update.status ≠ 0 ∧ o.final.status ≠ 0 ∧ o.gettag.status ≠ 0

instance (o : Script) : Decidable o.encAllOk := by
  unfold Script.encAllOk; infer_instance

/-- Number of leading steps that pass the program's `!status` test, given the
statuses of the steps in order. -/
def passed (statuses : List Int) : Nat := (statuses.takeWhile (fun x => x ≠ 0)).length

/-- The seven calls of a complete run of `chacha_encrypt`, in program order. -/
def encSteps (ctx : Int) (plaintext : Bytes) (plaintext_len : Int) (key nonce tag : Bytes) :
    List Call :=
  [ .CTX_new,
    .EncryptInit_ex ctx (some .chacha20_poly1305) none none,
    .CTX_ctrl ctx .AEAD_SET_IVLEN 12 none,
    .EncryptInit_ex ctx none (some key) (some nonce),
    .EncryptUpdate ctx plaintext plaintext_len,
    .EncryptFinal_ex ctx,
    .CTX_ctrl ctx .AEAD_GET_TAG 16 (some tag) ]

/-- The seven calls of a complete run of `chacha_decrypt`, in program order. -/
def decSteps (ctx : Int) (ciphertext : Bytes) (ciphertext_len : Int) (tag key nonce : Bytes) :
    List Call :=
  [ .CTX_new,
    .DecryptInit_ex ctx (some .chacha20_poly1305) none none,
    .CTX_ctrl ctx .AEAD_SET_IVLEN 12 none,
    .DecryptInit_ex ctx none (some key) (some nonce),
    .DecryptUpdate ctx ciphertext ciphertext_len,
    .CTX_ctrl ctx .AEAD_SET_TAG 16 (some tag),
    .DecryptFinal_ex ctx ]

/-- The release of the context when there is one: nothing for a `NULL` context. -/
def release (ctx : Int) : List Call := if ctx = 0 then [] else [.CTX_free ctx]

/-- In `l`, an occurrence of `b` has `a` somewhere before it. -/
def Before (a b : Call) (l : List Call) : Prop :=
  ∃ pre post, l = pre ++ b :: post ∧ a ∈ pre

/-- Some step of `chacha_decrypt` fails: the allocation returns `NULL`, or one
of init, nonce-length set, bind, update, tag set returns status `0`, or
finalize returns a status `≤ 0` (tag mismatch). -/
def Script.decFails (o : Script) : Prop :=
  o.alloc = 0 ∨ o.init.status = 0 ∨ o.ivlen.status = 0 ∨ o.bind.status = 0 ∨
    o.update.status = 0 ∨ o.settag.status = 0 ∨ o.final.status ≤ 0

/-- Some step of `chacha_encrypt` fails: the allocation returns `NULL` or one
of the six later steps returns status `0`. -/
def Script.encFails (o : Script) : Prop :=
  o.alloc = 0 ∨ o.init.status = 0 ∨ o.ivlen.status = 0 ∨ o.bind.status = 0 ∨
    o.update.status = 0 ∨ o.final.status = 0 ∨ o.gettag.status = 0

/-! ## A model of the library over an abstract AEAD -/

/-- An AEAD in the shape of ChaCha20-Poly1305: a length-preserving stream
transform under a key and nonce, its reverse, and a tag computed from the key,
the nonce, the associated data and the ciphertext. -/
structure AEAD where
  enc : (key nonce plaintext : Bytes) → Bytes
  dec : (key nonce ciphertext : Bytes) → Bytes
  mac : (key nonce aad ciphertext : Bytes) → Bytes

/-- One-shot encryption `encrypt(key, nonce, plaintext, aad) -> (ciphertext, tag)`. -/
def AEAD.seal (A : AEAD) (key nonce aad plaintext : Bytes) : Bytes × Bytes :=
  (A.enc key nonce plaintext, A.mac key nonce aad (A.enc key nonce plaintext))

/-- One-shot decryption: the plaintext when the tag verifies, nothing otherwise. -/
def AEAD.unseal (A : AEAD) (key nonce aad ciphertext tag : Bytes) : Option Bytes :=
  if A.mac key nonce aad ciphertext = tag then some (A.dec key nonce ciphertext) else none

/-- The laws assumed of the AEAD: decryption of what encryption produced, under
the same 32-byte key and 12-byte nonce and with empty associated data, gives
the plaintext back; the ciphertext is as long as the plaintext; the tag is 16
bytes. -/
structure AEAD.Lawful (A : AEAD) : Prop where
  correct : ∀ key nonce plaintext : Bytes, key.length = 32 → nonce.length = 12 →
    A.unseal key nonce [] (A.seal key nonce [] plaintext).1 (A.seal key nonce [] plaintext).2 =
      some plaintext
  enc_length : ∀ key nonce plaintext : Bytes, (A.enc key nonce plaintext).length = plaintext.length
  mac_length : ∀ key nonce aad ciphertext : Bytes, (A.mac key nonce aad ciphertext).length = 16

/-- The state of one cipher context. `data` is the ciphertext processed by the
single update, `tag` the tag computed by the encrypting finalize or the
expected tag set for decryption. -/
structure EvpCtx where
  encrypt : Bool
  cipher : Option Cipher
  ivlen : Nat
  key : Option Bytes
  iv : Option Bytes
  data : Option Bytes
  tag : Option Bytes
  deriving DecidableEq, Repr

/-- A context as `EVP_CIPHER_CTX_new` returns it. -/
def EvpCtx.fresh : EvpCtx :=
  { encrypt := false, cipher := none, ivlen := 12, key := none, iv := none, data := none,
    tag := none }

/-- `EVP_EncryptInit_ex` / `EVP_DecryptInit_ex`: select the cipher when one is
named, then take the first 32 bytes of the key and `ivlen` bytes of the nonce
when they are passed.  Fails when no cipher has been selected. -/
def evpInit (enc : Bool) (cipher : Option Cipher) (key iv : Option Bytes) (c : EvpCtx) :
    Reply × EvpCtx :=
  let c1 : EvpCtx :=
    match cipher with
    | some ci => { EvpCtx.fresh with encrypt := enc, cipher := some ci, ivlen := 12 }
    | none => { c with encrypt := enc }
  if c1.cipher = none then (Reply.ofStatus 0, c1)
  else
    let c2 : EvpCtx :=
      match key with
      | some k => { c1 with key := some (k.take 32), data := none, tag := none }
      | none => c1
    let c3 : EvpCtx :=
      match iv with
      | some n => { c2 with iv := some (n.take c2.ivlen), data := none, tag := none }
      | none => c2
    (Reply.ofStatus 1, c3)

/-- `EVP_CIPHER_CTX_ctrl` for the three control codes. -/
def evpCtrl (type : CtrlType) (arg : Int) (ptr : Option Bytes) (c : EvpCtx) : Reply × EvpCtx :=
  match type with
  | .AEAD_SET_IVLEN =>
    if c.cipher ≠ none ∧ 0 < arg ∧ arg ≤ 12 then
      (Reply.ofStatus 1, { c with ivlen := arg.toNat })
    else (Reply.ofStatus 0, c)
  | .AEAD_GET_TAG =>
    match c.tag with
    | some t =>
      if c.encrypt = true ∧ 0 < arg ∧ arg ≤ 16 then
        ({ status := 1, outl := 0, out := t.take arg.toNat }, c)
      else (Reply.ofStatus 0, c)
    | none => (Reply.ofStatus 0, c)
  | .AEAD_SET_TAG =>
    match ptr with
    | some t =>
      if c.encrypt = false ∧ 0 < arg ∧ arg ≤ 16 then
        (Reply.ofStatus 1, { c with tag := some (t.take arg.toNat) })
      else (Reply.ofStatus 0, c)
    | none => (Reply.ofStatus 0, c)

/-- `EVP_EncryptUpdate` / `EVP_DecryptUpdate` with a non-`NULL` output pointer:
transform the first `inl` bytes of the input under the bound key and nonce,
store the result through the output pointer at once and report its length.
The context handles one update per binding. -/
def evpUpdate (A : AEAD) (enc : Bool) (inp : Bytes) (inl : Int) (c : EvpCtx) : Reply × EvpCtx :=
  match c.key, c.iv, c.data with
  | some k, some n, none =>
    if c.cipher ≠ none ∧ c.encrypt = enc ∧ 0 ≤ inl then
      let x := inp.take inl.toNat
      let y := if enc then A.enc k n x else A.dec k n x
      ({ status := 1, outl := y.length, out := y },
        { c with data := some (if enc then y else x) })
    else (Reply.ofStatus 0, c)
  | _, _, _ => (Reply.ofStatus 0, c)

/-- `EVP_EncryptFinal_ex`: no further output; the tag over the ciphertext (and
empty associated data) becomes available to `AEAD_GET_TAG`. -/
def evpEncryptFinal (A : AEAD) (c : EvpCtx) : Reply × EvpCtx :=
  match c.key, c.iv with
  | some k, some n =>
    if c.cipher ≠ none ∧ c.encrypt = true then
      (Reply.ofStatus 1, { c with tag := some (A.mac k n [] (c.data.getD [])) })
    else (Reply.ofStatus 0, c)
  | _, _ => (Reply.ofStatus 0, c)

/-- `EVP_DecryptFinal_ex`: no further output; status `1` when the tag computed
over the processed ciphertext equals the expected tag set on the context,
status `0` otherwise. -/
def evpDecryptFinal (A : AEAD) (c : EvpCtx) : Reply × EvpCtx :=
  match c.key, c.iv, c.tag with
  | some k, some n, some t =>
    if c.cipher ≠ none ∧ c.encrypt = false ∧ A.mac k n [] (c.data.getD []) = t then
      (Reply.ofStatus 1, c)
    else (Reply.ofStatus 0, c)
  | _, _, _ => (Reply.ofStatus 0, c)

/-- The library over the AEAD `A`.  Its state is the one live context, if any;
`CTX_new` returns the pointer `1`. -/
def evp (A : AEAD) : Cap (Option EvpCtx)
  | .CTX_new, _ => (Reply.ofStatus 1, some EvpCtx.fresh)
  | .CTX_free _, _ => (Reply.ofStatus 0, none)
  | _, none => (Reply.ofStatus 0, none)
  | .EncryptInit_ex _ cipher key iv, some c => (evpInit true cipher key iv c).map id some
  | .DecryptInit_ex _ cipher key iv, some c => (evpInit false cipher key iv c).map id some
  | .CTX_ctrl _ type arg ptr, some c => (evpCtrl type arg ptr c).map id some
  | .EncryptUpdate _ inp inl, some c => (evpUpdate A true inp inl c).map id some
  | .DecryptUpdate _ inp inl, some c => (evpUpdate A false inp inl c).map id some
  | .EncryptFinal_ex _, some c => (evpEncryptFinal A c).map id some
  | .DecryptFinal_ex _, some c => (evpDecryptFinal A c).map id some

/-! ### A small concrete AEAD -/

/-- Sum of the bytes of a buffer, modulo 256. -/
def checksum (bs : Bytes) : Byte := bs.sum

/-- The pad byte derived from key and nonce. -/
def toyPad (key nonce : Bytes) : Byte := key.headD 0 + nonce.headD 0

/-- A toy AEAD: every byte is shifted by a pad byte derived from key and nonce;
the tag is the checksum of key, nonce, associated data and ciphertext followed
by fifteen zero bytes. -/
def toyAEAD : AEAD where
  enc := fun key nonce plaintext => plaintext.map (fun b => b + toyPad key nonce)
  dec := fun key nonce ciphertext => ciphertext.map (fun b => b - toyPad key nonce)
  mac := fun key nonce aad ciphertext =>
    (checksum key + checksum nonce + checksum aad + checksum ciphertext) ::
      List.replicate 15 0

/-! ### Single-bit tampering -/

/-- The ciphertext a call of `chacha_encrypt` hands to the caller: the first
`ret` bytes of the ciphertext buffer. -/
def EncResult.ciphertextOut {S : Type} (e : EncResult S) : Bytes := e.ciphertext.take e.ret.toNat

/-- The tag a call of `chacha_encrypt` hands to the caller: the first 16 bytes
of the tag buffer. -/
def EncResult.tagOut {S : Type} (e : EncResult S) : Bytes := e.tag.take 16

/-! ### Concrete inputs for the examples -/

/-- A 32-byte key. -/
def exKey : Bytes := List.replicate 32 3

/-- A 12-byte nonce. -/
def exNonce : Bytes := List.replicate 12 1

/-- A three-byte plaintext. -/
def exPlain : Bytes := [10, 20, 30]

/-- A table in which every step succeeds, the update emits three bytes and the
finalize none. -/
def exScript : Script :=
  { alloc := 1,
    init := Reply.ofStatus 1,
    ivlen := Reply.ofStatus 1,
    bind := Reply.ofStatus 1,
    update := { status := 1, outl := 3, out := [14, 24, 34] },
    final := Reply.ofStatus 1,
    gettag := { status := 1, outl := 0, out := List.replicate 16 5 },
    settag := Reply.ofStatus 1 }

/-- The encryption of `exPlain` under `exKey` and `exNonce` by the toy AEAD,
into a four-byte ciphertext buffer and a 16-byte tag buffer. -/
def exEnc : EncResult (Option EvpCtx) :=
  chacha_encrypt (evp toyAEAD) (World.start none) exPlain 3 exKey exNonce [0, 0, 0, 0]
    (List.replicate 16 9)

/-- A table in which every step succeeds, the update reports two bytes and the
finalize five. -/
def exScriptSplit : Script :=
  { exScript with
    update := { status := 1, outl := 2, out := [14, 24] },
    final := { status := 1, outl := 5, out := [] } }

/-- A decryption under a wrong tag: the toy AEAD, an all-zero key and nonce,
the one-byte ciphertext `[1]`, an all-zero tag, and a one-byte plaintext buffer
holding `0` on entry. -/
def exBadTag : DecResult (Option EvpCtx) :=
  chacha_decrypt (evp toyAEAD) (World.start none) [1] 1 (List.replicate 16 0)
    (List.replicate 32 0) (List.replicate 12 0) [0]

/-! ## Theorems -/

/-- Every run of `chacha_decrypt`, against any capability in any state, gives
the return value, buffer and trace of the run against the table of the replies
that capability gave. -/
theorem chacha_decrypt_scripted {S : Type} (cap : Cap S) (s : S) (ciphertext : Bytes)
    (ciphertext_len : Int) (tag key nonce plaintext : Bytes) :
    (chacha_decrypt cap (World.start s) ciphertext ciphertext_len tag key nonce plaintext).ret =
      (chacha_decrypt (scripted (decScriptOf cap s ciphertext ciphertext_len tag key nonce))
        (World.start ()) ciphertext ciphertext_len tag key nonce plaintext).ret ∧
    (chacha_decrypt cap (World.start s) ciphertext ciphertext_len tag key nonce
        plaintext).plaintext =
      (chacha_decrypt (scripted (decScriptOf cap s ciphertext ciphertext_len tag key nonce))
        (World.start ()) ciphertext ciphertext_len tag key nonce plaintext).plaintext ∧
    (chacha_decrypt cap (World.start s) ciphertext ciphertext_len tag key nonce
        plaintext).world.trace =
      (chacha_decrypt (scripted (decScriptOf cap s ciphertext ciphertext_len tag key nonce))
        (World.start ()) ciphertext ciphertext_len tag key nonce plaintext).world.trace := by
  simp only [chacha_decrypt, chacha_decrypt_error, invoke, scripted, Script.reply, decScriptOf,
    World.start]
  split_ifs <;> exact ⟨rfl, rfl, rfl⟩

/-- Every run of `chacha_encrypt`, against any capability in any state, gives
the return value, buffers and trace of the run against the table of the replies
that capability gave. -/
theorem chacha_encrypt_scripted {S : Type} (cap : Cap S) (s : S) (plaintext : Bytes)
    (plaintext_len : Int) (key nonce ciphertext tag : Bytes) :
    (chacha_encrypt cap (World.start s) plaintext plaintext_len key nonce ciphertext tag).ret =
      (chacha_encrypt (scripted (encScriptOf cap s plaintext plaintext_len key nonce tag))
        (World.start ()) plaintext plaintext_len key nonce ciphertext tag).ret ∧
    (chacha_encrypt cap (World.start s) plaintext plaintext_len key nonce ciphertext
        tag).ciphertext =
      (chacha_encrypt (scripted (encScriptOf cap s plaintext plaintext_len key nonce tag))
        (World.start ()) plaintext plaintext_len key nonce ciphertext tag).ciphertext ∧
    (chacha_encrypt cap (World.start s) plaintext plaintext_len key nonce ciphertext tag).tag =
      (chacha_encrypt (scripted (encScriptOf cap s plaintext plaintext_len key nonce tag))
        (World.start ()) plaintext plaintext_len key nonce ciphertext tag).tag ∧
    (chacha_encrypt cap (World.start s) plaintext plaintext_len key nonce ciphertext
        tag).world.trace =
      (chacha_encrypt (scripted (encScriptOf cap s plaintext plaintext_len key nonce tag))
        (World.start ()) plaintext plaintext_len key nonce ciphertext tag).world.trace := by
  simp only [chacha_encrypt, chacha_encrypt_error, invoke, scripted, Script.reply, encScriptOf,
    World.start]
  split_ifs <;> exact ⟨rfl, rfl, rfl, rfl⟩

/-- A store keeps the capacity of the buffer. -/
theorem writeAt_length (buf : Bytes) (off : Int) (data : Bytes) :
    (writeAt buf off data).length = buf.length := by
  unfold writeAt
  split_ifs
  · simp only [List.length_append, List.length_take, List.length_drop]
    omega
  · simp only [List.length_append, List.length_take, List.length_drop]
    omega

/-- Byte by byte: a store replaces exactly the bytes of the buffer it covers. -/
theorem writeAt_getElem? (buf : Bytes) (off : Int) (data : Bytes) (i : Nat)
    (hi : i < buf.length) :
    (writeAt buf off data)[i]? =
      if off ≤ i ∧ (i : Int) < off + data.length then data[((i : Int) - off).toNat]?
      else buf[i]? := by
  unfold writeAt
  by_cases h0 : 0 ≤ off
  · obtain ⟨o, rfl⟩ := Int.eq_ofNat_of_zero_le h0
    simp only [Int.ofNat_nonneg, if_true, Int.toNat_ofNat, Nat.cast_le]
    by_cases hio : o ≤ i
    · obtain ⟨k, rfl⟩ : ∃ k, i = o + k := ⟨i - o, by omega⟩
      rw [List.getElem?_append_right (by simp), List.length_take, Nat.min_eq_left (by omega),
        Nat.add_sub_cancel_left, List.getElem?_take_of_lt (by omega)]
      by_cases hk : k < data.length
      · rw [List.getElem?_append_left hk, if_pos ⟨by omega, by omega⟩]
        congr 1
        omega
      · rw [List.getElem?_append_right (by omega), List.getElem?_drop, if_neg (by omega)]
        congr 1
        omega
    · rw [List.getElem?_append_left (by simp; omega), List.getElem?_take_of_lt (by omega),
        if_neg (by omega)]
  · simp only [h0, if_false]
    obtain ⟨m, hm⟩ : ∃ m : Nat, off = -(m : Int) := ⟨(-off).toNat, by omega⟩
    subst hm
    simp only [neg_neg, Int.toNat_ofNat]
    rw [List.getElem?_take_of_lt hi]
    by_cases hk : i + m < data.length
    · rw [List.getElem?_append_left (by simp; omega), List.getElem?_drop,
        if_pos ⟨by omega, by omega⟩]
      congr 1
      omega
    · rw [List.getElem?_append_right (by simp; omega), List.getElem?_drop, if_neg (by omega)]
      congr 1
      simp only [List.length_drop]
      omega

/-- Storing no bytes leaves a buffer as it is. -/
theorem writeAt_nil (buf : Bytes) (off : Int) : writeAt buf off [] = buf := by
  unfold writeAt
  split_ifs
  · have h : (List.drop off.toNat buf).take (buf.length - off.toNat) = List.drop off.toNat buf :=
      List.take_of_length_le (by simp)
    simp [h]
  · simp

/-- A store at the start of a buffer that fits replaces its first bytes. -/
theorem writeAt_zero (buf data : Bytes) (h : data.length ≤ buf.length) :
    writeAt buf 0 data = data ++ buf.drop data.length := by
  unfold writeAt
  simp only [le_refl, if_true, Int.toNat_zero, List.take_zero, List.nil_append, Nat.zero_add,
    Nat.sub_zero]
  rw [List.take_of_length_le]
  simp
  omega

/-- The C sum of two `int`s is their sum whenever that sum fits an `int`. -/
theorem addInt_of_fits (a b : Int) (hlo : -INT_MAX - 1 ≤ a + b) (hhi : a + b ≤ INT_MAX) :
    addInt a b = a + b := by
  unfold addInt wrapInt
  unfold INT_MAX at hlo hhi
  omega

/-- A length that fits an `int` is not changed by the reduction to `int`. -/
theorem wrapInt_natCast (n : Nat) (h : (n : Int) ≤ INT_MAX) : wrapInt n = n := by
  unfold wrapInt
  unfold INT_MAX at h
  omega

/-- What `chacha_encrypt` computes over the library model: it returns the
length of the stream output and leaves the stream output and the tag in the
caller's buffers. -/
theorem chacha_encrypt_evp (A : AEAD) (s : Option EvpCtx) (P key nonce cbuf tbuf : Bytes) :
    (chacha_encrypt (evp A) (World.start s) P P.length key nonce cbuf tbuf).ret =
        addInt (A.enc (key.take 32) (nonce.take 12) P).length 0 ∧
    (chacha_encrypt (evp A) (World.start s) P P.length key nonce cbuf tbuf).ciphertext =
        writeAt cbuf 0 (A.enc (key.take 32) (nonce.take 12) P) ∧
    (chacha_encrypt (evp A) (World.start s) P P.length key nonce cbuf tbuf).tag =
        writeAt tbuf 0
          ((A.mac (key.take 32) (nonce.take 12) [] (A.enc (key.take 32) (nonce.take 12) P)).take
            16) := by
  simp [chacha_encrypt, chacha_encrypt_error, invoke, evp, World.start, evpInit, evpCtrl,
    evpUpdate, evpEncryptFinal, EvpCtx.fresh, Reply.ofStatus, NONCE_SIZE, TAG_SIZE, writeAt_nil]

/-- What `chacha_decrypt` computes over the library model: the stream output is
stored in the caller's buffer whatever the tag, and the length is returned
exactly when the computed tag equals the first 16 bytes of the caller's tag. -/
theorem chacha_decrypt_evp (A : AEAD) (s : Option EvpCtx) (C T key nonce pbuf : Bytes) :
    (chacha_decrypt (evp A) (World.start s) C C.length T key nonce pbuf).ret =
        (if A.mac (key.take 32) (nonce.take 12) [] C = T.take 16 then
          addInt (A.dec (key.take 32) (nonce.take 12) C).length 0 else -1) ∧
    (chacha_decrypt (evp A) (World.start s) C C.length T key nonce pbuf).plaintext =
        writeAt pbuf 0 (A.dec (key.take 32) (nonce.take 12) C) := by
  by_cases h : A.mac (key.take 32) (nonce.take 12) [] C = T.take 16 <;>
  simp [chacha_decrypt, chacha_decrypt_error, invoke, evp, World.start, evpInit, evpCtrl,
    evpUpdate, evpDecryptFinal, EvpCtx.fresh, Reply.ofStatus, NONCE_SIZE, TAG_SIZE, writeAt_nil, h]

/-- The toy AEAD satisfies the AEAD laws. -/
theorem toyAEAD_lawful : toyAEAD.Lawful where
  correct := by
    intro key nonce plaintext _ _
    have hid : ((fun b : Byte => b - toyPad key nonce) ∘ fun b => b + toyPad key nonce) = id := by
      funext b
      simp
    simp [AEAD.unseal, AEAD.seal, toyAEAD, hid]
  enc_length := by
    intro key nonce plaintext
    simp [toyAEAD]
  mac_length := by
    intro key nonce aad ciphertext
    simp [toyAEAD]

/-- Return value of `chacha_decrypt` under a table of outcomes. -/
theorem chacha_decrypt_ret_eq (o : Script) (ciphertext : Bytes) (ciphertext_len : Int)
    (tag key nonce plaintext : Bytes) :
    (chacha_decrypt (scripted o) (World.start ()) ciphertext ciphertext_len tag key nonce
        plaintext).ret =
      (if o.decSetupOk ∧ 0 < o.final.status then addInt o.update.outl o.final.outl else -1) := by
  simp only [chacha_decrypt, chacha_decrypt_error, invoke, scripted, Script.reply,
    Script.decSetupOk]
  split_ifs <;> first | omega | simp_all

/-- Return value of `chacha_encrypt` under a table of outcomes. -/
theorem chacha_encrypt_ret_eq (o : Script) (plaintext : Bytes) (plaintext_len : Int)
    (key nonce ciphertext tag : Bytes) :
    (chacha_encrypt (scripted o) (World.start ()) plaintext plaintext_len key nonce ciphertext
        tag).ret =
      (if o.encAllOk then addInt o.update.outl o.final.outl else -1) := by
  simp only [chacha_encrypt, chacha_encrypt_error, invoke, scripted, Script.reply,
    Script.encAllOk]
  split_ifs <;> simp_all

/-- A run in which some step of `chacha_decrypt` fails is not a run in which
the setup steps pass and finalize reports success. -/
theorem not_verified_of_decFails (o : Script) (hf : o.decFails) :
    ¬ (o.decSetupOk ∧ 0 < o.final.status) := by
  unfold Script.decFails at hf
  unfold Script.decSetupOk
  rintro ⟨⟨a, b, c, d, e, f⟩, g⟩
  rcases hf with h | h | h | h | h | h | h
  · exact a h
  · exact b h
  · exact c h
  · exact d h
  · exact e h
  · exact f h
  · omega

/-- C2: for every combination of step outcomes, `chacha_decrypt` returns the
sum of the update length and the finalize length when the allocation and the
init, nonce-length, bind, update and tag-set steps pass (nonzero status, the
test the program applies) and finalize returns a positive status, and `-1` in
every other case; so a value other than `-1` is returned only if finalize
reported success. -/
theorem chacha_decrypt_length_only_if_verified (o : Script) (ciphertext : Bytes) (ciphertext_len : Int)
    (tag key nonce plaintext : Bytes) :
    (chacha_decrypt (scripted o) (World.start ()) ciphertext ciphertext_len tag key nonce
        plaintext).ret =
      (if o.decSetupOk ∧ 0 < o.final.status then addInt o.update.outl o.final.outl else -1) ∧
    ((chacha_decrypt (scripted o) (World.start ()) ciphertext ciphertext_len tag key nonce
        plaintext).ret ≠ -1 → o.decSetupOk ∧ 0 < o.final.status) := by
  refine ⟨chacha_decrypt_ret_eq o _ _ _ _ _ _, fun h => ?_⟩
  rw [chacha_decrypt_ret_eq] at h
  by_contra hc
  exact h (if_neg hc)

/-- Trace of `chacha_encrypt` under a table of outcomes. -/
theorem chacha_encrypt_trace_eq (o : Script) (plaintext : Bytes) (plaintext_len : Int)
    (key nonce ciphertext tag : Bytes) :
    (chacha_encrypt (scripted o) (World.start ()) plaintext plaintext_len key nonce ciphertext
        tag).world.trace =
      (encSteps o.alloc plaintext plaintext_len key nonce tag).take
        (passed [o.alloc, o.init.status, o.ivlen.status, o.bind.status, o.update.status,
          o.final.status, o.gettag.status] + 1) ++ release o.alloc := by
  simp only [chacha_encrypt, chacha_encrypt_error, invoke, scripted, Script.reply, World.start,
    encSteps, passed, release, NONCE_SIZE, TAG_SIZE]
  split_ifs <;> simp_all [List.takeWhile_cons]

/-- Trace of `chacha_decrypt` under a table of outcomes. -/
theorem chacha_decrypt_trace_eq (o : Script) (ciphertext : Bytes) (ciphertext_len : Int)
    (tag key nonce plaintext : Bytes) :
    (chacha_decrypt (scripted o) (World.start ()) ciphertext ciphertext_len tag key nonce
        plaintext).world.trace =
      (decSteps o.alloc ciphertext ciphertext_len tag key nonce).take
        (passed [o.alloc, o.init.status, o.ivlen.status, o.bind.status, o.update.status,
          o.settag.status] + 1) ++ release o.alloc := by
  simp only [chacha_decrypt, chacha_decrypt_error, invoke, scripted, Script.reply, World.start,
    decSteps, passed, release, NONCE_SIZE, TAG_SIZE]
  split_ifs <;> simp_all [List.takeWhile_cons]

/-- C4: for every combination of outcomes of the seven steps of
`chacha_encrypt`, if some step fails (status `0`, or `NULL` from the
allocation) the function returns `-1`; the calls issued are the steps up to and
including the first failing one, followed by the release of the context when
one was allocated, so no later step is executed; and a value other than `-1`
is returned only when all seven steps pass, in which case it is the update
length plus the finalize length. -/
theorem chacha_encrypt_failure (o : Script) (plaintext : Bytes) (plaintext_len : Int)
    (key nonce ciphertext tag : Bytes) :
    (o.encFails →
      (chacha_encrypt (scripted o) (World.start ()) plaintext plaintext_len key nonce
        ciphertext tag).ret = -1) ∧
    (chacha_encrypt (scripted o) (World.start ()) plaintext plaintext_len key nonce ciphertext
        tag).world.trace =
      (encSteps o.alloc plaintext plaintext_len key nonce tag).take
        (passed [o.alloc, o.init.status, o.ivlen.status, o.bind.status, o.update.status,
          o.final.status, o.gettag.status] + 1) ++ release o.alloc ∧
    ((chacha_encrypt (scripted o) (World.start ()) plaintext plaintext_len key nonce
        ciphertext tag).ret ≠ -1 → o.encAllOk) ∧
    (o.encAllOk →
      (chacha_encrypt (scripted o) (World.start ()) plaintext plaintext_len key nonce
        ciphertext tag).ret = addInt o.update.outl o.final.outl) := by
  refine ⟨fun hf => ?_, chacha_encrypt_trace_eq o _ _ _ _ _ _, fun h => ?_, fun h => ?_⟩
  · rw [chacha_encrypt_ret_eq, if_neg]
    unfold Script.encFails at hf
    unfold Script.encAllOk
    tauto
  · rw [chacha_encrypt_ret_eq] at h
    by_contra hc
    exact h (if_neg hc)
  · rw [chacha_encrypt_ret_eq, if_pos h]

/-- C6: any two failing runs of `chacha_decrypt` return the same value, `-1`,
whatever inputs they were given and whichever step failed: a failure of
finalize (tag mismatch) is returned exactly as a failure of the allocation,
init, nonce-length set, bind, update or tag set. -/
theorem chacha_decrypt_single_sentinel (o₁ o₂ : Script)
    (ciphertext₁ : Bytes) (ciphertext_len₁ : Int) (tag₁ key₁ nonce₁ plaintext₁ : Bytes)
    (ciphertext₂ : Bytes) (ciphertext_len₂ : Int) (tag₂ key₂ nonce₂ plaintext₂ : Bytes)
    (h₁ : o₁.decFails) (h₂ : o₂.decFails) :
    (chacha_decrypt (scripted o₁) (World.start ()) ciphertext₁ ciphertext_len₁ tag₁ key₁ nonce₁
        plaintext₁).ret =
      (chacha_decrypt (scripted o₂) (World.start ()) ciphertext₂ ciphertext_len₂ tag₂ key₂
        nonce₂ plaintext₂).ret ∧
    (chacha_decrypt (scripted o₁) (World.start ()) ciphertext₁ ciphertext_len₁ tag₁ key₁ nonce₁
        plaintext₁).ret = -1 := by
  rw [chacha_decrypt_ret_eq, chacha_decrypt_ret_eq, if_neg (not_verified_of_decFails o₁ h₁),
    if_neg (not_verified_of_decFails o₂ h₂)]
  exact ⟨rfl, rfl⟩

/-- A list that is a prefix of the steps followed by one release has the
release as its last call and no release before it. -/
theorem released_once (steps : List Call) (k : Nat) (ctx : Int)
    (hs : ∀ c ∈ steps, c.isFree = false) :
    ∃ pre, steps.take k ++ [Call.CTX_free ctx] = pre ++ [Call.CTX_free ctx] ∧
      ∀ c ∈ pre, c.isFree = false :=
  ⟨steps.take k, rfl, fun c hc => hs c (List.mem_of_mem_take hc)⟩

/-- None of the steps of `chacha_encrypt` is a release. -/
theorem encSteps_not_free (ctx : Int) (plaintext : Bytes) (plaintext_len : Int)
    (key nonce tag : Bytes) :
    ∀ c ∈ encSteps ctx plaintext plaintext_len key nonce tag, c.isFree = false := by
  intro c hc
  simp only [encSteps, List.mem_cons, List.mem_singleton, List.not_mem_nil, or_false] at hc
  rcases hc with h | h | h | h | h | h | h <;> subst h <;> rfl

/-- None of the steps of `chacha_decrypt` is a release. -/
theorem decSteps_not_free (ctx : Int) (ciphertext : Bytes) (ciphertext_len : Int)
    (tag key nonce : Bytes) :
    ∀ c ∈ decSteps ctx ciphertext ciphertext_len tag key nonce, c.isFree = false := by
  intro c hc
  simp only [decSteps, List.mem_cons, List.mem_singleton, List.not_mem_nil, or_false] at hc
  rcases hc with h | h | h | h | h | h | h <;> subst h <;> rfl

/-- C7: in every run of `chacha_encrypt` and of `chacha_decrypt` (every
combination of step outcomes), when the allocation gives a context the trace
of calls ends with the release of that context and contains no other release,
so the context is freed exactly once and no call follows the release; when the
allocation gives `NULL` the trace contains no release. -/
theorem ctx_released_every_path (o : Script) (data : Bytes) (data_len : Int)
    (key nonce tag out : Bytes) :
    (o.alloc ≠ 0 →
      (∃ pre, (chacha_encrypt (scripted o) (World.start ()) data data_len key nonce out
          tag).world.trace = pre ++ [Call.CTX_free o.alloc] ∧ ∀ c ∈ pre, c.isFree = false) ∧
      (∃ pre, (chacha_decrypt (scripted o) (World.start ()) data data_len tag key nonce
          out).world.trace = pre ++ [Call.CTX_free o.alloc] ∧ ∀ c ∈ pre, c.isFree = false)) ∧
    (o.alloc = 0 →
      (∀ c ∈ (chacha_encrypt (scripted o) (World.start ()) data data_len key nonce out
          tag).world.trace, c.isFree = false) ∧
      (∀ c ∈ (chacha_decrypt (scripted o) (World.start ()) data data_len tag key nonce
          out).world.trace, c.isFree = false)) := by
  rw [chacha_encrypt_trace_eq, chacha_decrypt_trace_eq]
  constructor
  · intro h
    rw [release, if_neg h]
    exact ⟨released_once _ _ _ (encSteps_not_free _ _ _ _ _ _),
      released_once _ _ _ (decSteps_not_free _ _ _ _ _ _)⟩
  · intro h
    simp only [release, if_pos h, List.append_nil]
    exact ⟨fun c hc => encSteps_not_free _ _ _ _ _ _ c (List.mem_of_mem_take hc),
      fun c hc => decSteps_not_free _ _ _ _ _ _ c (List.mem_of_mem_take hc)⟩

/-- The leading passes of a list of statuses are at most its length. -/
theorem passed_le (l : List Int) : passed l ≤ l.length := by
  unfold passed
  exact (List.takeWhile_sublist _).length_le

/-- Cutting a list after an occurrence of `b` keeps what precedes `b`. -/
theorem before_take (a b : Call) (pre post r : List Call) (n : Nat) (ha : a ∈ pre)
    (hn : pre.length < n) : Before a b ((pre ++ b :: post).take n ++ r) := by
  refine ⟨pre, post.take (n - pre.length - 1) ++ r, ?_, ha⟩
  obtain ⟨m, rfl⟩ : ∃ m, n = pre.length + 1 + m := ⟨n - (pre.length + 1), by omega⟩
  rw [List.take_append_eq_append_take, List.take_of_length_le (by omega)]
  have : pre.length + 1 + m - pre.length = m + 1 := by omega
  rw [this, List.take_succ_cons]
  simp

/-- C9: in every run of `chacha_decrypt` (every combination of step outcomes)
the calls issued are a prefix of [allocate, init for decryption with
ChaCha20-Poly1305 and no key or nonce, set the nonce length to 12, bind key and
nonce, update with the ciphertext and its length, set the expected 16-byte tag
to the caller's tag, finalize], cut after the first failing step, followed by
the release of the context when one was allocated; whenever finalize is
called the tag has been set on that context before, and whenever key and nonce
are bound the nonce length has been set to 12 before. -/
theorem chacha_decrypt_step_order (o : Script) (ciphertext : Bytes) (ciphertext_len : Int)
    (tag key nonce plaintext : Bytes) :
    (chacha_decrypt (scripted o) (World.start ()) ciphertext ciphertext_len tag key nonce
        plaintext).world.trace =
      (decSteps o.alloc ciphertext ciphertext_len tag key nonce).take
        (passed [o.alloc, o.init.status, o.ivlen.status, o.bind.status, o.update.status,
          o.settag.status] + 1) ++ release o.alloc ∧
    (∀ c, Call.DecryptFinal_ex c ∈
        (chacha_decrypt (scripted o) (World.start ()) ciphertext ciphertext_len tag key nonce
          plaintext).world.trace →
      Before (Call.CTX_ctrl c .AEAD_SET_TAG 16 (some tag)) (Call.DecryptFinal_ex c)
        (chacha_decrypt (scripted o) (World.start ()) ciphertext ciphertext_len tag key nonce
          plaintext).world.trace) ∧
    (∀ c k n, Call.DecryptInit_ex c none k n ∈
        (chacha_decrypt (scripted o) (World.start ()) ciphertext ciphertext_len tag key nonce
          plaintext).world.trace →
      k = some key ∧ n = some nonce ∧
      Before (Call.CTX_ctrl c .AEAD_SET_IVLEN 12 none) (Call.DecryptInit_ex c none k n)
        (chacha_decrypt (scripted o) (World.start ()) ciphertext ciphertext_len tag key nonce
          plaintext).world.trace) := by
  rw [chacha_decrypt_trace_eq]
  have hle := passed_le [o.alloc, o.init.status, o.ivlen.status, o.bind.status,
    o.update.status, o.settag.status]
  generalize passed [o.alloc, o.init.status, o.ivlen.status, o.bind.status,
    o.update.status, o.settag.status] = p at hle ⊢
  simp only [List.length_cons, List.length_nil] at hle
  refine ⟨rfl, fun c hc => ?_, fun c k n hc => ?_⟩
  · have hp : p = 6 := by
      by_contra hne
      have hlt : p < 6 := by omega
      interval_cases p <;> simp [decSteps, release] at hc
    subst hp
    have hcc : c = o.alloc := by
      simp [decSteps, release] at hc
      exact hc
    subst hcc
    exact before_take _ _
      [ .CTX_new, .DecryptInit_ex o.alloc (some .chacha20_poly1305) none none,
        .CTX_ctrl o.alloc .AEAD_SET_IVLEN 12 none,
        .DecryptInit_ex o.alloc none (some key) (some nonce),
        .DecryptUpdate o.alloc ciphertext ciphertext_len,
        .CTX_ctrl o.alloc .AEAD_SET_TAG 16 (some tag)] [] _ 7 (by simp) (by simp)
  · have hp : 3 ≤ p := by
      by_contra hne
      have hlt : p < 3 := by omega
      interval_cases p <;> simp [decSteps, release] at hc
    have hcc : c = o.alloc ∧ k = some key ∧ n = some nonce := by
      have hmem : Call.DecryptInit_ex c none k n ∈
          decSteps o.alloc ciphertext ciphertext_len tag key nonce ++ release o.alloc :=
        List.mem_append.2 ((List.mem_append.1 hc).imp List.mem_of_mem_take id)
      simp [decSteps, release] at hmem
      exact hmem
    obtain ⟨rfl, rfl, rfl⟩ := hcc
    exact ⟨rfl, rfl, before_take _ _
      [ .CTX_new, .DecryptInit_ex o.alloc (some .chacha20_poly1305) none none,
        .CTX_ctrl o.alloc .AEAD_SET_IVLEN 12 none]
      [ .DecryptUpdate o.alloc ciphertext ciphertext_len,
        .CTX_ctrl o.alloc .AEAD_SET_TAG 16 (some tag), .DecryptFinal_ex o.alloc] _ (p + 1)
      (by simp) (by simp; omega)⟩

/-- Encryption over the library model of a lawful AEAD, with buffers of
sufficient capacity: the call returns the plaintext length and hands out the
stream ciphertext and its tag. -/
theorem chacha_encrypt_evp_out (A : AEAD) (hA : A.Lawful) (s : Option EvpCtx)
    (key nonce P cbuf tbuf : Bytes) (hk : key.length = 32) (hn : nonce.length = 12)
    (hP : (P.length : Int) ≤ INT_MAX) (hc : P.length ≤ cbuf.length) (ht : 16 ≤ tbuf.length) :
    (chacha_encrypt (evp A) (World.start s) P P.length key nonce cbuf tbuf).ret = P.length ∧
    (chacha_encrypt (evp A) (World.start s) P P.length key nonce cbuf tbuf).ciphertextOut =
      A.enc key nonce P ∧
    (chacha_encrypt (evp A) (World.start s) P P.length key nonce cbuf tbuf).tagOut =
      A.mac key nonce [] (A.enc key nonce P) := by
  obtain ⟨hr, hct, htg⟩ := chacha_encrypt_evp A s P key nonce cbuf tbuf
  have hk32 : key.take 32 = key := List.take_of_length_le (by omega)
  have hn12 : nonce.take 12 = nonce := List.take_of_length_le (by omega)
  rw [hk32, hn12] at hr hct htg
  have hlen := hA.enc_length key nonce P
  have hmac := hA.mac_length key nonce [] (A.enc key nonce P)
  have hret : (chacha_encrypt (evp A) (World.start s) P P.length key nonce cbuf tbuf).ret =
      P.length := by
    rw [hr, hlen, addInt, add_zero, wrapInt_natCast _ hP]
  refine ⟨hret, ?_, ?_⟩
  · rw [EncResult.ciphertextOut, hret, hct, writeAt_zero _ _ (by omega), Int.toNat_natCast,
      List.take_append_of_le_length (by omega), List.take_of_length_le (by omega)]
  · have hm16 : (A.mac key nonce [] (A.enc key nonce P)).take 16 =
        A.mac key nonce [] (A.enc key nonce P) := List.take_of_length_le (by omega)
    rw [EncResult.tagOut, htg, hm16, writeAt_zero _ _ (by omega),
      List.take_append_of_le_length (by omega), List.take_of_length_le (by omega)]

/-- C1: round trip.  Over the library model of any AEAD that satisfies the
correctness law (with empty associated data), for every 32-byte key, 12-byte
nonce and plaintext `P` whose length fits an `int` (the empty one included) and
caller buffers of sufficient capacity, `chacha_encrypt` succeeds, and
`chacha_decrypt` applied to the ciphertext and tag it handed out, under the same
key and nonce, returns `len(P)` and leaves exactly `P` in the first `len(P)`
bytes of the plaintext buffer, the rest of the buffer being untouched. -/
theorem chacha_roundtrip (A : AEAD) (hA : A.Lawful) (s₁ s₂ : Option EvpCtx)
    (key nonce P cbuf tbuf pbuf : Bytes) (hk : key.length = 32) (hn : nonce.length = 12)
    (hP : (P.length : Int) ≤ INT_MAX) (hc : P.length ≤ cbuf.length) (ht : 16 ≤ tbuf.length)
    (hp : P.length ≤ pbuf.length)
    (e : EncResult (Option EvpCtx))
    (he : e = chacha_encrypt (evp A) (World.start s₁) P P.length key nonce cbuf tbuf)
    (d : DecResult (Option EvpCtx))
    (hd : d = chacha_decrypt (evp A) (World.start s₂) e.ciphertextOut e.ciphertextOut.length
      e.tagOut key nonce pbuf) :
    e.ret = P.length ∧ d.ret = P.length ∧ d.plaintext = P ++ pbuf.drop P.length := by
  obtain ⟨hr, hct, htg⟩ := chacha_encrypt_evp_out A hA s₁ key nonce P cbuf tbuf hk hn hP hc ht
  rw [← he] at hr hct htg
  obtain ⟨dr, dp⟩ := chacha_decrypt_evp A s₂ e.ciphertextOut e.tagOut key nonce pbuf
  rw [← hd] at dr dp
  have hk32 : key.take 32 = key := List.take_of_length_le (by omega)
  have hn12 : nonce.take 12 = nonce := List.take_of_length_le (by omega)
  have hmac := hA.mac_length key nonce [] (A.enc key nonce P)
  have hdec : A.dec key nonce (A.enc key nonce P) = P := by
    have h := hA.correct key nonce P hk hn
    simpa [AEAD.unseal, AEAD.seal] using h
  rw [hk32, hn12, hct, htg, hdec, List.take_of_length_le (by omega), if_pos rfl, addInt,
    add_zero, wrapInt_natCast _ hP] at dr
  rw [hk32, hn12, hct, hdec, writeAt_zero _ _ hp] at dp
  exact ⟨hr, dr, dp⟩

/-- C1, at a concrete input: the toy AEAD, `exKey`, `exNonce`, `exPlain`. -/
theorem chacha_roundtrip_witness :
    exEnc.ret = 3 ∧
    (chacha_decrypt (evp toyAEAD) (World.start none) exEnc.ciphertextOut
      exEnc.ciphertextOut.length exEnc.tagOut exKey exNonce [7, 7, 7, 7]).ret = 3 ∧
    (chacha_decrypt (evp toyAEAD) (World.start none) exEnc.ciphertextOut
      exEnc.ciphertextOut.length exEnc.tagOut exKey exNonce [7, 7, 7, 7]).plaintext =
        [10, 20, 30, 7] :=
  chacha_roundtrip toyAEAD toyAEAD_lawful none none exKey exNonce exPlain [0, 0, 0, 0]
    (List.replicate 16 9) [7, 7, 7, 7] (by decide) (by decide) (by decide) (by decide)
    (by decide) (by decide) exEnc rfl _ rfl

/-- C5, refuted as stated: decrypting under a wrong tag returns `-1`, yet the
caller's plaintext buffer, which held `[0]` before the call, holds the
unauthenticated candidate `[1]` after it. -/
theorem chacha_decrypt_failure_overwrites_buffer :
    exBadTag.ret = -1 ∧ exBadTag.plaintext = [1] ∧ exBadTag.plaintext ≠ [0] := by
  decide

/-- C5, amended: for every combination of step outcomes, `chacha_decrypt`
returns `-1` whenever a step fails and a value other than `-1` only if finalize
reported success, but the caller's plaintext buffer is written before the
verification.  When the allocation, init, nonce-length set or bind fails the
buffer is as before the call.  Once the update step is reached the buffer is
the buffer before the call with the bytes the update emitted stored at its
start and, when update and tag set passed, the bytes finalize emitted stored
at the offset the update reported - whether or not the call then returns
`-1`. -/
theorem chacha_decrypt_buffer (o : Script) (ciphertext : Bytes) (ciphertext_len : Int)
    (tag key nonce plaintext : Bytes) :
    (o.decFails →
      (chacha_decrypt (scripted o) (World.start ()) ciphertext ciphertext_len tag key nonce
        plaintext).ret = -1) ∧
    ((chacha_decrypt (scripted o) (World.start ()) ciphertext ciphertext_len tag key nonce
        plaintext).ret ≠ -1 → 0 < o.final.status) ∧
    (o.alloc = 0 ∨ o.init.status = 0 ∨ o.ivlen.status = 0 ∨ o.bind.status = 0 →
      (chacha_decrypt (scripted o) (World.start ()) ciphertext ciphertext_len tag key nonce
        plaintext).plaintext = plaintext) ∧
    (o.alloc ≠ 0 ∧ o.init.status ≠ 0 ∧ o.ivlen.status ≠ 0 ∧ o.bind.status ≠ 0 →
      (chacha_decrypt (scripted o) (World.start ()) ciphertext ciphertext_len tag key nonce
        plaintext).plaintext =
        if o.update.status = 0 ∨ o.settag.status = 0 then writeAt plaintext 0 o.update.out
        else writeAt (writeAt plaintext 0 o.update.out) o.update.outl o.final.out) := by
  refine ⟨fun h => ?_, fun h => ?_, fun h => ?_, fun h => ?_⟩
  · rw [chacha_decrypt_ret_eq, if_neg (not_verified_of_decFails o h)]
  · rw [chacha_decrypt_ret_eq] at h
    by_contra hc
    exact h (if_neg fun hh => hc hh.2)
  · simp only [chacha_decrypt, chacha_decrypt_error, invoke, scripted, Script.reply]
    split_ifs <;> first | rfl | (exfalso; tauto)
  · obtain ⟨h1, h2, h3, h4⟩ := h
    simp only [chacha_decrypt, chacha_decrypt_error, invoke, scripted, Script.reply]
    split_ifs <;> first | rfl | (exfalso; tauto)

/-- A store at offset `n` leaves the first `n` bytes of a buffer as they are. -/
theorem take_writeAt (buf data : Bytes) (n : Nat) :
    (writeAt buf n data).take n = buf.take n := by
  unfold writeAt
  simp only [Int.ofNat_nonneg, if_true, Int.toNat_ofNat]
  rcases Nat.lt_or_ge buf.length n with h | h
  · rw [List.take_of_length_le (l := buf) (by omega), Nat.sub_eq_zero_of_le (by omega),
      List.take_zero, List.append_nil, List.take_of_length_le (by omega)]
  · rw [List.take_append_of_le_length (by simp; omega), List.take_take, Nat.min_self]

/-- C8: length preservation.  In every run of `chacha_encrypt` in which all
seven steps succeed, whatever lengths the capability reports: the value returned
is the length reported by the update step plus the length reported by the
finalize step, all seven steps have been issued in order and then the release,
and the ciphertext buffer holds what update and finalize stored.  So for every
plaintext whose length `n` fits an `int` (`n = 0` included), key and nonce, when
the capability reports `n` bytes on update and `0` on finalize the call returns
exactly `n`, and when the update emits those `n` bytes into a buffer of
capacity at least `n` the ciphertext handed out is these `n` bytes. -/
theorem chacha_encrypt_length (o : Script) (plaintext key nonce ciphertext tag : Bytes)
    (hok : o.encAllOk) (hn : (plaintext.length : Int) ≤ INT_MAX) :
    (chacha_encrypt (scripted o) (World.start ()) plaintext plaintext.length key nonce
        ciphertext tag).ret = addInt o.update.outl o.final.outl ∧
    (chacha_encrypt (scripted o) (World.start ()) plaintext plaintext.length key nonce
        ciphertext tag).world.trace =
      encSteps o.alloc plaintext plaintext.length key nonce tag ++ [Call.CTX_free o.alloc] ∧
    (chacha_encrypt (scripted o) (World.start ()) plaintext plaintext.length key nonce
        ciphertext tag).ciphertext =
      writeAt (writeAt ciphertext 0 o.update.out) o.update.outl o.final.out ∧
    (o.update.outl = plaintext.length → o.final.outl = 0 →
      (chacha_encrypt (scripted o) (World.start ()) plaintext plaintext.length key nonce
        ciphertext tag).ret = plaintext.length) ∧
    (o.update.outl = plaintext.length → o.final.outl = 0 →
      o.update.out.length = plaintext.length → plaintext.length ≤ ciphertext.length →
      (chacha_encrypt (scripted o) (World.start ()) plaintext plaintext.length key nonce
        ciphertext tag).ciphertextOut = o.update.out ∧
      (chacha_encrypt (scripted o) (World.start ()) plaintext plaintext.length key nonce
        ciphertext tag).ciphertextOut.length = plaintext.length) := by
  have hret := chacha_encrypt_ret_eq o plaintext plaintext.length key nonce ciphertext tag
  rw [if_pos hok] at hret
  have htr := chacha_encrypt_trace_eq o plaintext plaintext.length key nonce ciphertext tag
  have hct : (chacha_encrypt (scripted o) (World.start ()) plaintext plaintext.length key nonce
      ciphertext tag).ciphertext =
      writeAt (writeAt ciphertext 0 o.update.out) o.update.outl o.final.out := by
    obtain ⟨h1, h2, h3, h4, h5, h6, h7⟩ := hok
    simp only [chacha_encrypt, chacha_encrypt_error, invoke, scripted, Script.reply]
    simp [h1, h2, h3, h4, h5, h6, h7]
  have hval : o.update.outl = plaintext.length → o.final.outl = 0 →
      addInt o.update.outl o.final.outl = plaintext.length := by
    intro hu hf
    rw [hu, hf, addInt, add_zero, wrapInt_natCast _ hn]
  refine ⟨hret, ?_, hct, fun hu hf => hret.trans (hval hu hf), fun hu hf huo hcap => ?_⟩
  · obtain ⟨h1, h2, h3, h4, h5, h6, h7⟩ := hok
    rw [htr]
    simp [passed, encSteps, release, List.takeWhile_cons, h1, h2, h3, h4, h5, h6, h7]
  · have hout : (chacha_encrypt (scripted o) (World.start ()) plaintext plaintext.length key
        nonce ciphertext tag).ciphertextOut = o.update.out := by
      rw [EncResult.ciphertextOut, hret, hval hu hf, hct, hu, Int.toNat_natCast, take_writeAt,
        writeAt_zero _ _ (by omega), ← huo, List.take_left]
    exact ⟨hout, by rw [hout, huo]⟩

/-- C8, at two concrete inputs: with `exScript` (update reports 3, finalize 0)
the call on the three-byte `exPlain` returns `3` and hands out the three bytes
the update emitted; with `exScriptSplit` (update reports 2, finalize 5) the
same call returns `7`, the sum of the two reported lengths. -/
theorem chacha_encrypt_length_witness :
    (chacha_encrypt (scripted exScript) (World.start ()) exPlain 3 exKey exNonce [0, 0, 0, 0]
        (List.replicate 16 9)).ret = 3 ∧
    (chacha_encrypt (scripted exScript) (World.start ()) exPlain 3 exKey exNonce [0, 0, 0, 0]
        (List.replicate 16 9)).ciphertextOut = [14, 24, 34] ∧
    (chacha_encrypt (scripted exScriptSplit) (World.start ()) exPlain 3 exKey exNonce
        [0, 0, 0, 0] (List.replicate 16 9)).ret = 7 :=
  have h := chacha_encrypt_length exScript exPlain exKey exNonce [0, 0, 0, 0]
    (List.replicate 16 9) (by decide) (by decide)
  have h' := chacha_encrypt_length exScriptSplit exPlain exKey exNonce [0, 0, 0, 0]
    (List.replicate 16 9) (by decide) (by decide)
  ⟨h.2.2.2.1 rfl rfl, (h.2.2.2.2 rfl rfl rfl (by decide)).1, h'.1⟩

/-- C6, at a concrete input: a run whose finalize reports a tag mismatch and a
run whose allocation fails. -/
theorem chacha_decrypt_single_sentinel_witness :
    (chacha_decrypt (scripted { exScript with final := Reply.ofStatus 0 }) (World.start ())
        [14, 24, 34] 3 (List.replicate 16 5) exKey exNonce [0, 0, 0]).ret =
      (chacha_decrypt (scripted { exScript with alloc := 0 }) (World.start ())
        [] 0 (List.replicate 16 0) exKey exNonce []).ret :=
  (chacha_decrypt_single_sentinel { exScript with final := Reply.ofStatus 0 }
    { exScript with alloc := 0 } [14, 24, 34] 3 (List.replicate 16 5) exKey exNonce [0, 0, 0]
    [] 0 (List.replicate 16 0) exKey exNonce []
    (Or.inr (Or.inr (Or.inr (Or.inr (Or.inr (Or.inr (by decide)))))))
    (Or.inl rfl)).1

end ChaCha
